import Mathlib

/-!
Verification of the commit-deduplication and changelog-entry assembly pipeline
of the ai-changelog-generator web application.

The definitions below are a shallow embedding of the TypeScript route handlers
and of the database schema:
* `detectComponent`, `detectScope`, `detectImpact` — the keyword-based metadata
  heuristics of `src/app/api/generate-changelog/route.ts` (identical copies live
  in `src/app/api/submit-changelog/route.ts`);
* `parseGitHubUrl` — the repository identity resolver of `src/app/utils/github.ts`;
* `dedupFilter` — the already-processed-commit filter of the commits route;
* `Store`, `runTransaction`, `submitEnhanced`, `submitLegacyDedup` — the durable
  store (with the `processed_commits_hash_unique` constraint of the drizzle
  schema) and the two submit-changelog transaction bodies;
* `generateEntries` — the entry extractor of the generate-changelog route with
  its fixed fallback entry.

JavaScript string and truthiness semantics are modelled explicitly
(`jsIncludes`, `jsToLower`, `jsOrNat`, `jsOrBool`, `jsOrStr`, `jsReplaceFirst`).
-/

namespace ChangelogGen

/-- `listIncludes pat s` holds when `pat` occurs as a contiguous run inside `s`.
Models JavaScript `String.prototype.includes` on the underlying characters. -/
def listIncludes (pat : List Char) : List Char → Bool
  | [] => pat.isEmpty
  | c :: rest => pat.isPrefixOf (c :: rest) || listIncludes pat rest

/-- JavaScript `s.includes(pat)`. -/
def jsIncludes (s pat : String) : Bool :=
  listIncludes pat.toList s.toList

/-- JavaScript `s.toLowerCase()` for ASCII content (every keyword the detect
functions test is ASCII, where the two functions agree). -/
def jsToLower (s : String) : String :=
  ⟨s.toList.map Char.toLower⟩

/-- JavaScript `x || d` for an optional number field: `undefined` and `0` are
falsy, any other number is returned unchanged. -/
def jsOrNat (o : Option Nat) (d : Nat) : Nat :=
  match o with
  | some n => if n = 0 then d else n
  | none => d

/-- JavaScript `x || d` for an optional boolean field: `undefined` and `false`
are falsy. -/
def jsOrBool (o : Option Bool) (d : Bool) : Bool :=
  match o with
  | some b => if b then b else d
  | none => d

/-- JavaScript `x || d` for an optional string field: `undefined` and `""` are
falsy. -/
def jsOrStr (o : Option String) (d : String) : String :=
  match o with
  | some s => if s = "" then d else s
  | none => d

/-- Metadata heuristic `detectComponent` of
`src/app/api/generate-changelog/route.ts` (lines 220-254): a fixed chain of
lowercased keyword tests, first match wins, `undefined` when nothing matches. -/
def detectComponent (content : String) : Option String :=
  let lowerContent := jsToLower content
  if jsIncludes lowerContent "analytics" || jsIncludes lowerContent "stats" || jsIncludes lowerContent "metrics" then
    some "Analytics"
  else if jsIncludes lowerContent "auth" || jsIncludes lowerContent "login" || jsIncludes lowerContent "sign in" then
    some "Authentication"
  else if jsIncludes lowerContent "api" || jsIncludes lowerContent "integration" || jsIncludes lowerContent "connect" then
    some "API Integration"
  else if jsIncludes lowerContent "content" || jsIncludes lowerContent "editor" || jsIncludes lowerContent "cms" then
    some "Content Management"
  else if jsIncludes lowerContent "dashboard" then
    some "Dashboards"
  else if jsIncludes lowerContent "visualiz" || jsIncludes lowerContent "chart" || jsIncludes lowerContent "graph" then
    some "Data Visualization"
  else if jsIncludes lowerContent "email" || jsIncludes lowerContent "notification" || jsIncludes lowerContent "alert" then
    some "Email Notifications"
  else if jsIncludes lowerContent "filter" || jsIncludes lowerContent "sort" || jsIncludes lowerContent "search" then
    some "Filtering"
  else if jsIncludes lowerContent "performance" || jsIncludes lowerContent "speed" || jsIncludes lowerContent "optimize" then
    some "Performance Optimization"
  else if jsIncludes lowerContent "report" || jsIncludes lowerContent "export" then
    some "Reporting"
  else if jsIncludes lowerContent "search" then
    some "Search"
  else if jsIncludes lowerContent "security" || jsIncludes lowerContent "protect" || jsIncludes lowerContent "privacy" then
    some "Security Features"
  else if jsIncludes lowerContent "user experience" || jsIncludes lowerContent "ux" || jsIncludes lowerContent "workflow" then
    some "User Experience"
  else if jsIncludes lowerContent "ui" || jsIncludes lowerContent "interface" || jsIncludes lowerContent "display" then
    some "User Interface"
  else
    none

/-- Metadata heuristic `detectScope` of the same route (lines 256-269). -/
def detectScope (content : String) : Option String :=
  let lowerContent := jsToLower content
  if jsIncludes lowerContent "frontend" || jsIncludes lowerContent "ui" || jsIncludes lowerContent "interface" then
    some "Frontend"
  else if jsIncludes lowerContent "backend" || jsIncludes lowerContent "api" || jsIncludes lowerContent "server" then
    some "Backend"
  else if jsIncludes lowerContent "database" || jsIncludes lowerContent "schema" then
    some "Database"
  else if jsIncludes lowerContent "infra" || jsIncludes lowerContent "deployment" then
    some "Infrastructure"
  else
    none

/-- Metadata heuristic `detectImpact` of the same route (lines 271-282):
"major" or "patch" when the respective keywords match, "minor" otherwise. -/
def detectImpact (content : String) : String :=
  let lowerContent := jsToLower content
  if jsIncludes lowerContent "major" || jsIncludes lowerContent "significant" || jsIncludes lowerContent "redesign" || jsIncludes lowerContent "overhaul" then
    "major"
  else if jsIncludes lowerContent "bugfix" || jsIncludes lowerContent "typo" || jsIncludes lowerContent "minor fix" || jsIncludes lowerContent "small" then
    "patch"
  else
    "minor"

/-- Ordered table of keyword groups for `detectComponent`, in the priority
order of the source's if-chain. -/
def componentKeywordGroups : List (List String × String) :=
  [ (["analytics", "stats", "metrics"], "Analytics"),
    (["auth", "login", "sign in"], "Authentication"),
    (["api", "integration", "connect"], "API Integration"),
    (["content", "editor", "cms"], "Content Management"),
    (["dashboard"], "Dashboards"),
    (["visualiz", "chart", "graph"], "Data Visualization"),
    (["email", "notification", "alert"], "Email Notifications"),
    (["filter", "sort", "search"], "Filtering"),
    (["performance", "speed", "optimize"], "Performance Optimization"),
    (["report", "export"], "Reporting"),
    (["search"], "Search"),
    (["security", "protect", "privacy"], "Security Features"),
    (["user experience", "ux", "workflow"], "User Experience"),
    (["ui", "interface", "display"], "User Interface") ]

/-- Ordered table of keyword groups for `detectScope`. -/
def scopeKeywordGroups : List (List String × String) :=
  [ (["frontend", "ui", "interface"], "Frontend"),
    (["backend", "api", "server"], "Backend"),
    (["database", "schema"], "Database"),
    (["infra", "deployment"], "Infrastructure") ]

/-- Specification-side evaluator: walk an ordered table of (keyword group,
category) pairs and return the category of the first group with a keyword
occurring in the lowercased content. -/
def firstMatchingCategory : List (List String × String) → String → Option String
  | [], _ => none
  | (keywords, category) :: rest, content =>
    if keywords.any (fun k => jsIncludes (jsToLower content) k) then some category
    else firstMatchingCategory rest content

/-- Keywords whose presence makes `detectImpact` report "major". -/
def majorKeywords : List String := ["major", "significant", "redesign", "overhaul"]

/-- Keywords whose presence makes `detectImpact` report "patch". -/
def patchKeywords : List String := ["bugfix", "typo", "minor fix", "small"]

/-! ## Repository identity resolver (`src/app/utils/github.ts`) -/

/-- Result of `parseGitHubUrl`: the `{ owner, repo }` pair. -/
structure OwnerRepo where
  owner : String
  repo : String
deriving DecidableEq

/-- Remove the first occurrence of `pat` from `s` (JavaScript
`s.replace(pat, "")` with a string pattern replaces only the first match). -/
def replaceFirstAux (pat : List Char) : List Char → List Char
  | [] => []
  | c :: rest =>
    if pat.isPrefixOf (c :: rest) then (c :: rest).drop pat.length
    else c :: replaceFirstAux pat rest

/-- JavaScript `s.replace(pat, "")` for a non-empty string pattern. -/
def jsReplaceFirst (s pat : String) : String :=
  ⟨replaceFirstAux pat.toList s.toList⟩

/-- JavaScript `s.split(sep)` for a single-character separator: splits on every
occurrence, keeping empty groups, and returns `[s]` when `sep` is absent. -/
def splitOnChar (sep : Char) : List Char → List (List Char)
  | [] => [[]]
  | c :: rest =>
    if c = sep then [] :: splitOnChar sep rest
    else
      match splitOnChar sep rest with
      | [] => [[c]]
      | g :: gs => (c :: g) :: gs

/-- Split `s` at the first occurrence of `pat`, returning the parts before and
after it, or `none` when `pat` does not occur. -/
def splitFirst (pat : List Char) : List Char → Option (List Char × List Char)
  | [] => if pat.isEmpty then some ([], []) else none
  | c :: rest =>
    if pat.isPrefixOf (c :: rest) then some ([], (c :: rest).drop pat.length)
    else
      match splitFirst pat rest with
      | some (pre, post) => some (c :: pre, post)
      | none => none

/-- Characters permitted in a URL scheme after its first letter. -/
def isSchemeChar (c : Char) : Bool :=
  c.isAlphanum || c = '+' || c = '-' || c = '.'

/-- Model of the platform's WHATWG `new URL(s).pathname` restricted to
hierarchical `scheme://host/path` URLs: returns the pathname (query and
fragment stripped, `"/"` when the path is empty) and `none` when the
constructor would throw (no `scheme://host` structure, invalid scheme
characters, or an empty host). -/
def urlPathname (s : List Char) : Option (List Char) :=
  match splitFirst "://".toList s with
  | none => none
  | some (scheme, rest) =>
    match scheme with
    | [] => none
    | c0 :: cs =>
      if c0.isAlpha && cs.all isSchemeChar then
        let host := rest.takeWhile (fun c => c != '/' && c != '?' && c != '#')
        if host = [] then none
        else
          match rest.drop host.length with
          | '/' :: tail => some ('/' :: tail.takeWhile (fun c => c != '?' && c != '#'))
          | _ => some ['/']
      else none

/-- The SSH prefix the resolver recognises. -/
def sshMarker : List Char := "git@github.com:".toList

/-- The error value surfaced by the resolver: both throw sites of the source
collapse into the outer `catch`, which rethrows `Error("Invalid GitHub URL")`. -/
def invalidGitHubUrl : String := "Invalid GitHub URL"

/-- `parseGitHubUrl` of `src/app/utils/github.ts`: accepts
`git@github.com:owner/repo[.git]` and, through the platform URL parser,
`scheme://host/owner/repo[.git]`; strips the first `".git"`, splits the path on
`/`, and fails when owner or repo is missing or empty. -/
def parseGitHubUrl (url : String) : Except String OwnerRepo :=
  let chars := url.toList
  if sshMarker.isPrefixOf chars then
    let rest := replaceFirstAux ".git".toList (chars.drop sshMarker.length)
    let parts := splitOnChar '/' rest
    let owner := parts.getD 0 []
    let repo := parts.getD 1 []
    if owner = [] ∨ repo = [] then .error invalidGitHubUrl
    else .ok ⟨⟨owner⟩, ⟨repo⟩⟩
  else
    match urlPathname chars with
    | none => .error invalidGitHubUrl
    | some pathname =>
      let rest := replaceFirstAux ".git".toList (pathname.drop 1)
      let parts := splitOnChar '/' rest
      let owner := parts.getD 0 []
      let repo := parts.getD 1 []
      if owner = [] ∨ repo = [] then .error invalidGitHubUrl
      else .ok ⟨⟨owner⟩, ⟨repo⟩⟩

/-! ## Durable store

Row shapes follow the drizzle schema (`src/app/db/schema.ts`, the migration
`drizzle/0001_awesome_stryfe.sql` with its `processed_commits_hash_unique`
constraint) and, for the tables whose declarations are only referenced by the
enhanced submit route (`changelog_entries`, `file_changes`, `entry_commit_map`),
the columns named by that route's insert values together with spec section 3.
Timestamps are carried as the strings the requests supply; `serial` ids are
modelled by the row count at insert time. -/

/-- Aggregate stats of a commit, as supplied by the commits route. -/
structure CommitStats where
  totalAdditions : Nat
  totalDeletions : Nat
  filesChanged : Nat
deriving DecidableEq

/-- A file change of a commit, as supplied by the commits route. -/
structure FileChangeIn where
  path : String
  additions : Nat
  deletions : Nat
  patch : String
  component : String
deriving DecidableEq

/-- A commit in a submit request body. The legacy submit route reads only
`hash`, `message` and `date`; the enhanced route also reads `files` and
`stats`. -/
structure CommitIn where
  hash : String
  message : String
  date : String
  files : List FileChangeIn := []
  stats : CommitStats := ⟨0, 0, 0⟩
deriving DecidableEq

/-- An entry in a submit request body (`ChangelogEntry` interface of
`src/app/api/submit-changelog/route.ts`; every field but `content` optional). -/
structure EntryIn where
  content : String
  component : Option String := none
  scope : Option String := none
  impact : Option String := none
  isTechnical : Option Bool := none
  isUserFacing : Option Bool := none
  order : Option Nat := none
  labels : Option String := none
deriving DecidableEq

/-- A stored `changelogs` row. -/
structure ChangelogRow where
  id : Nat
  title : String
  content : String
  type : String
deriving DecidableEq

/-- A stored `changelog_entries` row, with the columns the enhanced submit
route writes. -/
structure EntryRow where
  id : Nat
  changelogId : Nat
  content : String
  component : Option String
  scope : Option String
  impact : String
  isTechnical : Bool
  isUserFacing : Bool
  order : Nat
  labels : Option String
deriving DecidableEq

/-- A stored `processed_commits` row. The enhanced schema's `stats` column is
absent from the legacy schema, so it is optional here; `repoUrl` doubles as the
legacy `repo_path` column (one text column keying the repository identity). -/
structure CommitRow where
  id : Nat
  hash : String
  message : String
  date : String
  repoUrl : String
  changelogId : Nat
  stats : Option CommitStats
deriving DecidableEq

/-- A stored `file_changes` row. -/
structure FileChangeRow where
  commitId : Nat
  path : String
  additions : Nat
  deletions : Nat
  patch : String
  component : String
deriving DecidableEq

/-- A stored `entry_commit_map` row. -/
structure LinkRow where
  entryId : Nat
  commitId : Nat
deriving DecidableEq

/-- The durable store: one list per table. -/
structure Store where
  changelogs : List ChangelogRow := []
  changelogEntries : List EntryRow := []
  processedCommits : List CommitRow := []
  fileChanges : List FileChangeRow := []
  entryCommitMap : List LinkRow := []
deriving DecidableEq

/-- The empty database. -/
def emptyStore : Store := {}

/-- Errors a transaction body can raise. `uniqueViolation` is the
`processed_commits_hash_unique` constraint firing; `fileInsertFault` is an
injected failure of a `file_changes` insert; `noNewCommits` is the legacy
dedup re-check's `Error("All commits have already been processed")`. -/
inductive DbError where
  | uniqueViolation
  | fileInsertFault
  | noNewCommits
deriving DecidableEq

/-- `db.transaction`: run the body; on success the new store is visible, on
any error the store is exactly as before and the single error is surfaced. -/
def runTransaction (s : Store) (body : Store → Except DbError (Store × α)) :
    Store × Except DbError α :=
  match body s with
  | .ok (s', a) => (s', .ok a)
  | .error e => (s, .error e)

/-- Whether an `Except` result is a success. -/
def isOkB : Except DbError α → Bool
  | .ok _ => true
  | .error _ => false

/-- The `changelog_entries` row written for submitted entry `e` at position
`idx`, mirroring the enhanced route's insert values: `impact: entry.impact ||
"minor"`, `isTechnical: entry.isTechnical || false`, `isUserFacing:
entry.isUserFacing || true`, `order: entry.order || index`. -/
def mkEntryRow (id clId idx : Nat) (e : EntryIn) : EntryRow :=
  { id := id
    changelogId := clId
    content := e.content
    component := e.component
    scope := e.scope
    impact := jsOrStr e.impact "minor"
    isTechnical := jsOrBool e.isTechnical false
    isUserFacing := jsOrBool e.isUserFacing true
    order := jsOrNat e.order idx
    labels := e.labels }

/-- Insert the submitted entries one by one, tracking the running position
`idx`; returns the new store and the inserted rows in insertion order. -/
def insertEntriesAux (clId : Nat) : Nat → Store → List EntryIn → Store × List EntryRow
  | _, s, [] => (s, [])
  | idx, s, e :: es =>
    let row := mkEntryRow s.changelogEntries.length clId idx e
    let s' := { s with changelogEntries := s.changelogEntries ++ [row] }
    let res := insertEntriesAux clId (idx + 1) s' es
    (res.1, row :: res.2)

/-- Insert one commit row, enforcing the global `hash` uniqueness constraint,
then its `file_changes` rows when `files` is non-empty. `fault idx = true`
forces the `file_changes` insert of the commit at position `idx` to fail
(`fun _ => false` is normal operation). -/
def insertCommitsEnh (fault : Nat → Bool) (clId : Nat) (u : String) :
    Nat → Store → List CommitIn → Except DbError (Store × List CommitRow)
  | _, s, [] => .ok (s, [])
  | idx, s, c :: cs =>
    if s.processedCommits.any (fun r => r.hash == c.hash) then .error .uniqueViolation
    else
      let row : CommitRow :=
        { id := s.processedCommits.length, hash := c.hash, message := c.message,
          date := c.date, repoUrl := u, changelogId := clId, stats := some c.stats }
      let s1 := { s with processedCommits := s.processedCommits ++ [row] }
      if c.files = [] then
        match insertCommitsEnh fault clId u (idx + 1) s1 cs with
        | .error e => .error e
        | .ok (s2, rows) => .ok (s2, row :: rows)
      else if fault idx then .error .fileInsertFault
      else
        let newFileRows := c.files.map (fun f =>
          FileChangeRow.mk row.id f.path f.additions f.deletions f.patch f.component)
        let s2 := { s1 with fileChanges := s1.fileChanges ++ newFileRows }
        match insertCommitsEnh fault clId u (idx + 1) s2 cs with
        | .error e => .error e
        | .ok (s3, rows) => .ok (s3, row :: rows)

/-- Link every inserted entry to every inserted commit (the route's coarse
default). -/
def insertLinks (s : Store) (entryRows : List EntryRow) (commitRows : List CommitRow) : Store :=
  { s with entryCommitMap := s.entryCommitMap ++
      entryRows.flatMap (fun e => commitRows.map (fun c => ⟨e.id, c.id⟩)) }

/-- Request body of the enhanced submit route, after its validation: the entry
list to insert, the commit batch, the repository URL, the change type, and the
title derived upstream from the request date. -/
structure SubmitInput where
  entries : List EntryIn
  commits : List CommitIn
  repoUrl : String
  type : String
  title : String
deriving DecidableEq

/-- Transaction body of the enhanced submit route
(`src/app/api/submit-changelog/route.ts` lines 169-256): insert the changelog
(legacy flattened content), the entries, the commits with their file changes,
then the entry-commit links. -/
def submitEnhancedBody (fault : Nat → Bool) (inp : SubmitInput) (s : Store) :
    Except DbError (Store × ChangelogRow) :=
  let cl : ChangelogRow :=
    { id := s.changelogs.length, title := inp.title,
      content := String.intercalate "\n" (inp.entries.map (·.content)),
      type := inp.type }
  let s1 := { s with changelogs := s.changelogs ++ [cl] }
  let inserted := insertEntriesAux cl.id 0 s1 inp.entries
  match insertCommitsEnh fault cl.id inp.repoUrl 0 inserted.1 inp.commits with
  | .error e => .error e
  | .ok (s3, commitRows) => .ok (insertLinks s3 inserted.2 commitRows, cl)

/-- The enhanced submit operation: the body under `db.transaction`. -/
def submitEnhanced (fault : Nat → Bool) (inp : SubmitInput) (s : Store) :
    Store × Except DbError ChangelogRow :=
  runTransaction s (submitEnhancedBody fault inp)

/-- Request body of the dedup-checking submit route variant. -/
structure LegacyInput where
  content : String
  commits : List CommitIn
  repoUrl : String
  type : String
  title : String
deriving DecidableEq

/-- Insert commit rows one by one under the `hash` uniqueness constraint
(the legacy route's single multi-row insert of `newCommits`). -/
def insertCommitsLegacy (clId : Nat) (u : String) : Store → List CommitIn → Except DbError Store
  | s, [] => .ok s
  | s, c :: cs =>
    if s.processedCommits.any (fun r => r.hash == c.hash) then .error .uniqueViolation
    else
      insertCommitsLegacy clId u
        { s with processedCommits := s.processedCommits ++
            [{ id := s.processedCommits.length, hash := c.hash, message := c.message,
               date := c.date, repoUrl := u, changelogId := clId, stats := none }] } cs

/-- Transaction body of the dedup-checking submit route variant: query which of
the batch's hashes are already stored (any identity), keep the complement,
abort with the no-new-commits error when it is empty, otherwise insert the
changelog and only the new commits. -/
def submitLegacyDedupBody (inp : LegacyInput) (s : Store) :
    Except DbError (Store × ChangelogRow) :=
  let commitHashes := inp.commits.map (·.hash)
  let existingHashes :=
    (s.processedCommits.filter (fun r => commitHashes.contains r.hash)).map (·.hash)
  let newCommits := inp.commits.filter (fun c => !(existingHashes.contains c.hash))
  if newCommits = [] then .error .noNewCommits
  else
    let cl : ChangelogRow :=
      { id := s.changelogs.length, title := inp.title, content := inp.content,
        type := inp.type }
    let s1 := { s with changelogs := s.changelogs ++ [cl] }
    match insertCommitsLegacy cl.id inp.repoUrl s1 newCommits with
    | .error e => .error e
    | .ok s2 => .ok (s2, cl)

/-- The dedup-checking submit operation under `db.transaction`. -/
def submitLegacyDedup (inp : LegacyInput) (s : Store) :
    Store × Except DbError ChangelogRow :=
  runTransaction s (submitLegacyDedupBody inp)

/-! ## Deduplication filter (commits route) -/

/-- A commit as returned by the source host capability
(`octokit.rest.repos.listCommits`). -/
structure FetchedCommit where
  sha : String
  message : String
  date : String
deriving DecidableEq

/-- The commits route's filter: select the stored hashes recorded against this
`repoUrl`, and keep the fetched commits whose `sha` is not among them. -/
def dedupFilter (stored : List CommitRow) (repoUrl : String)
    (fetched : List FetchedCommit) : List FetchedCommit :=
  let processedHashes := (stored.filter (fun r => r.repoUrl == repoUrl)).map (·.hash)
  fetched.filter (fun c => !(processedHashes.contains c.sha))

/-- Hash `h` is recorded in `stored` against identity `u`. -/
def StoredForIdentity (stored : List CommitRow) (u h : String) : Prop :=
  ∃ r ∈ stored, r.repoUrl = u ∧ r.hash = h

instance (stored : List CommitRow) (u h : String) :
    Decidable (StoredForIdentity stored u h) := by
  unfold StoredForIdentity; infer_instance

/-- Specification-side set difference: the fetched commits whose hashes are
not stored for this identity, in fetch order. -/
def specNewCommits (stored : List CommitRow) (u : String)
    (fetched : List FetchedCommit) : List FetchedCommit :=
  fetched.filter (fun c => !(decide (StoredForIdentity stored u c.sha)))

/-! ## Entry extractor (generate-changelog route) -/

/-- An entry produced by the generate-changelog route. -/
structure GenEntry where
  content : String
  order : Nat
  component : Option String
  scope : Option String
  impact : String
  isTechnical : Bool
  isUserFacing : Bool
deriving DecidableEq

/-- The fixed fallback entry text of the generate-changelog route (lines
161-167), written when the model call fails. -/
def mockEntryContent : String :=
  "**UI Layout Improvements**\n\nWe\x27ve adjusted the layout of several UI elements to create a more logical flow. The repositioning of elements makes the application more intuitive to navigate.\n\n**What\x27s the Impact?**\nRelated UI elements are now grouped together for easier access\nThe most important controls are more prominently displayed"

/-- The fixed fallback entry of the generate-changelog route (lines 169-177). -/
def fallbackEntry : GenEntry :=
  { content := mockEntryContent, order := 0, component := some "User Experience",
    scope := some "Frontend", impact := "minor", isTechnical := false,
    isUserFacing := true }

/-- Entry construction of the generate-changelog route
(`src/app/api/generate-changelog/route.ts` lines 126-180): on a successful
model call, one entry built from the trimmed response with derived metadata;
when the model call fails, the fixed fallback entry — no error propagates. -/
def generateEntries (llmResult : Except String String) : List GenEntry :=
  match llmResult with
  | .ok responseText =>
    let generatedContent := responseText.trim
    [{ content := generatedContent, order := 0,
       component := detectComponent generatedContent,
       scope := detectScope generatedContent,
       impact := detectImpact generatedContent,
       isTechnical := false, isUserFacing := true }]
  | .error _ => [fallbackEntry]

/-! ## Reachable stores -/

/-- One user-triggered submission: either submit route variant, with any fault
behaviour of the file-change inserts. -/
inductive Step : Store → Store → Prop
  | enhanced (fault : Nat → Bool) (inp : SubmitInput) (s : Store) :
      Step s (submitEnhanced fault inp s).1
  | legacy (inp : LegacyInput) (s : Store) :
      Step s (submitLegacyDedup inp s).1

/-- Stores reachable from the empty database by submissions. -/
def Reachable (s : Store) : Prop :=
  Relation.ReflTransGen Step emptyStore s

/-- No two stored commit rows share a hash. -/
def HashesUnique (s : Store) : Prop :=
  (s.processedCommits.map (·.hash)).Nodup

/-! ## Concrete sample inputs for witnesses and counterexamples -/

/-- Sample legacy submit request: one commit batch for the C1 scenario. -/
def inpC1sample : LegacyInput :=
  ⟨"Fix login bug\nAdd dark mode",
   [⟨"a1", "Fix login bug", "d1", [], ⟨0, 0, 0⟩⟩, ⟨"a2", "Add dark mode", "d2", [], ⟨0, 0, 0⟩⟩],
   "https://github.com/owner/repo", "Feature", "January, 2025"⟩

/-- Sample enhanced submit request whose single commit carries one file change. -/
def inpC2sample : SubmitInput :=
  ⟨[⟨"entry", none, none, none, none, none, none, none⟩],
   [⟨"b1", "msg", "d", [⟨"src/app/api/x.ts", 1, 2, "patchtext", "api"⟩], ⟨1, 2, 1⟩⟩],
   "https://github.com/owner/repo", "Feature", "t"⟩

/-- The commit of `inpC2sample`. -/
def commitC2sample : CommitIn :=
  ⟨"b1", "msg", "d", [⟨"src/app/api/x.ts", 1, 2, "patchtext", "api"⟩], ⟨1, 2, 1⟩⟩

/-- Sample legacy submit request used to build a reachable store. -/
def inpC3sample : LegacyInput :=
  ⟨"c", [⟨"c1", "m", "d", [], ⟨0, 0, 0⟩⟩], "u", "Feature", "t"⟩

/-- A store already holding hash `c1`. -/
def storeC3sample : Store :=
  { processedCommits := [⟨0, "c1", "m", "d", "u", 0, none⟩] }

/-- A commit whose hash duplicates the one stored in `storeC3sample`. -/
def commitC3sample : CommitIn := ⟨"c1", "m2", "d2", [], ⟨0, 0, 0⟩⟩

/-- Enhanced submit request whose entries carry explicit non-dense order
values 2 and 9. -/
def inpC6cexSample : SubmitInput :=
  ⟨[⟨"x", none, none, none, none, none, some 2, none⟩,
    ⟨"y", none, none, none, none, none, some 9, none⟩], [], "u", "Feature", "t"⟩

/-- Enhanced submit request whose two entries carry no order field. -/
def inpC6sample : SubmitInput :=
  ⟨[⟨"first", none, none, none, none, none, none, none⟩,
    ⟨"second", none, none, none, none, none, none, none⟩], [], "u", "Feature", "t"⟩

/-- Enhanced submit request whose entry is submitted with
`isUserFacing = false`. -/
def inpC10sample : SubmitInput :=
  ⟨[⟨"hidden entry", none, none, none, none, some false, none, none⟩], [], "u", "Fix", "t"⟩

/-! ## Supporting lemmas -/

/-- The if-chain of `detectComponent` is the first-match evaluation of the
ordered component keyword table. -/
theorem detectComponent_eq_table (s : String) :
    detectComponent s = firstMatchingCategory componentKeywordGroups s := by
  simp only [detectComponent, firstMatchingCategory, componentKeywordGroups,
    List.any_cons, List.any_nil, Bool.or_false, Bool.or_assoc]

/-- The if-chain of `detectScope` is the first-match evaluation of the ordered
scope keyword table. -/
theorem detectScope_eq_table (s : String) :
    detectScope s = firstMatchingCategory scopeKeywordGroups s := by
  simp only [detectScope, firstMatchingCategory, scopeKeywordGroups,
    List.any_cons, List.any_nil, Bool.or_false, Bool.or_assoc]

/-- `detectImpact` tests the major keywords, then the patch keywords, and
defaults to "minor". -/
theorem detectImpact_eq_table (s : String) :
    detectImpact s =
      (if majorKeywords.any (fun k => jsIncludes (jsToLower s) k) then "major"
       else if patchKeywords.any (fun k => jsIncludes (jsToLower s) k) then "patch"
       else "minor") := by
  simp only [detectImpact, majorKeywords, patchKeywords,
    List.any_cons, List.any_nil, Bool.or_false, Bool.or_assoc]

/-- A string built from a non-empty character list is not the empty string. -/
theorem string_mk_ne_empty {l : List Char} (hl : l ≠ []) : (⟨l⟩ : String) ≠ "" := by
  intro he
  exact hl (by simpa using congrArg String.data he)

/-- The commits route's per-identity processed-hash lookup decides
`StoredForIdentity`. -/
theorem contains_filtered_hashes (stored : List CommitRow) (u h : String) :
    ((stored.filter (fun r => r.repoUrl == u)).map (·.hash)).contains h
      = decide (StoredForIdentity stored u h) := by
  rw [Bool.eq_iff_iff]
  simp [StoredForIdentity, List.elem_iff, and_assoc]

/-- JavaScript `x || true` is always `true`. -/
theorem jsOrBool_true (o : Option Bool) : jsOrBool o true = true := by
  cases o with
  | none => rfl
  | some b => cases b <;> rfl

/-- Entry insertion appends exactly its returned rows to the entries table. -/
theorem insertEntriesAux_fst_entries (clId : Nat) (es : List EntryIn) :
    ∀ (idx : Nat) (s : Store),
      (insertEntriesAux clId idx s es).1.changelogEntries
        = s.changelogEntries ++ (insertEntriesAux clId idx s es).2 := by
  induction es with
  | nil => intro idx s; simp [insertEntriesAux]
  | cons e es ih =>
    intro idx s
    dsimp only [insertEntriesAux]
    rw [ih]
    simp

/-- Entry insertion leaves every other table unchanged. -/
theorem insertEntriesAux_fst_others (clId : Nat) (es : List EntryIn) :
    ∀ (idx : Nat) (s : Store),
      (insertEntriesAux clId idx s es).1.processedCommits = s.processedCommits ∧
      (insertEntriesAux clId idx s es).1.changelogs = s.changelogs ∧
      (insertEntriesAux clId idx s es).1.fileChanges = s.fileChanges ∧
      (insertEntriesAux clId idx s es).1.entryCommitMap = s.entryCommitMap := by
  induction es with
  | nil => intro idx s; simp [insertEntriesAux]
  | cons e es ih =>
    intro idx s
    dsimp only [insertEntriesAux]
    exact ih (idx + 1) _

/-- The inserted entry rows carry the submitted contents in order. -/
theorem insertEntriesAux_snd_contents (clId : Nat) (es : List EntryIn) :
    ∀ (idx : Nat) (s : Store),
      (insertEntriesAux clId idx s es).2.map (·.content) = es.map (·.content) := by
  induction es with
  | nil => intro idx s; simp [insertEntriesAux]
  | cons e es ih =>
    intro idx s
    dsimp only [insertEntriesAux, mkEntryRow]
    rw [List.map_cons, ih]
    simp

/-- Every inserted entry row has its user-facing flag forced to `true`. -/
theorem insertEntriesAux_snd_userFacing (clId : Nat) (es : List EntryIn) :
    ∀ (idx : Nat) (s : Store) (r : EntryRow),
      r ∈ (insertEntriesAux clId idx s es).2 → r.isUserFacing = true := by
  induction es with
  | nil => intro idx s r hr; simp [insertEntriesAux] at hr
  | cons e es ih =>
    intro idx s r hr
    dsimp only [insertEntriesAux] at hr
    rcases List.mem_cons.mp hr with h | h
    · subst h
      exact jsOrBool_true _
    · exact ih (idx + 1) _ r h

/-- When every submitted order value defers to the running position, the
inserted rows carry the consecutive positions starting at `idx`. -/
theorem insertEntriesAux_snd_orders (clId : Nat) (es : List EntryIn) :
    ∀ (idx : Nat) (s : Store),
      (∀ i (hi : i < es.length), jsOrNat ((es.get ⟨i, hi⟩).order) (idx + i) = idx + i) →
      (insertEntriesAux clId idx s es).2.map (·.order) = List.range' idx es.length := by
  induction es with
  | nil => intro idx s _; simp [insertEntriesAux]
  | cons e es ih =>
    intro idx s hord
    dsimp only [insertEntriesAux, mkEntryRow]
    rw [List.map_cons]
    have h0 : jsOrNat e.order idx = idx := by
      have := hord 0 (by simp)
      simpa using this
    have htail : ∀ i (hi : i < es.length),
        jsOrNat ((es.get ⟨i, hi⟩).order) ((idx + 1) + i) = (idx + 1) + i := by
      intro i hi
      have := hord (i + 1) (by simpa using Nat.succ_lt_succ hi)
      have harith : idx + (i + 1) = (idx + 1) + i := by omega
      simpa [List.get, harith] using this
    rw [ih (idx + 1) _ htail]
    simp [List.range', h0]

/-- Commit insertion with a successful outcome appends exactly its returned
rows, writes the batch's hashes, and leaves the changelog and entry tables
unchanged. -/
theorem insertCommitsEnh_ok (fault : Nat → Bool) (clId : Nat) (u : String) (cs : List CommitIn) :
    ∀ (idx : Nat) (s s' : Store) (rows : List CommitRow),
      insertCommitsEnh fault clId u idx s cs = .ok (s', rows) →
      s'.processedCommits = s.processedCommits ++ rows ∧
      rows.map (·.hash) = cs.map (·.hash) ∧
      s'.changelogEntries = s.changelogEntries ∧
      s'.changelogs = s.changelogs := by
  induction cs with
  | nil =>
    intro idx s s' rows h
    simp only [insertCommitsEnh, Except.ok.injEq, Prod.mk.injEq] at h
    obtain ⟨h1, h2⟩ := h
    subst h1; subst h2
    simp
  | cons c cs ih =>
    intro idx s s' rows h
    dsimp only [insertCommitsEnh] at h
    split at h
    · exact absurd h (by simp)
    · split at h
      · split at h
        · exact absurd h (by simp)
        · rename_i s3 rows3 heq
          simp only [Except.ok.injEq, Prod.mk.injEq] at h
          obtain ⟨h1, h2⟩ := h
          subst h1; subst h2
          obtain ⟨p1, p2, p3, p4⟩ := ih (idx + 1) _ s3 rows3 heq
          refine ⟨?_, ?_, p3, p4⟩
          · rw [p1]; simp
          · rw [List.map_cons, p2]; simp
      · split at h
        · exact absurd h (by simp)
        · split at h
          · exact absurd h (by simp)
          · rename_i s3 rows3 heq
            simp only [Except.ok.injEq, Prod.mk.injEq] at h
            obtain ⟨h1, h2⟩ := h
            subst h1; subst h2
            obtain ⟨p1, p2, p3, p4⟩ := ih (idx + 1) _ s3 rows3 heq
            refine ⟨?_, ?_, p3, p4⟩
            · rw [p1]; simp
            · rw [List.map_cons, p2]; simp

/-- Successful commit insertion preserves distinctness of the stored hashes:
each row passes the uniqueness guard before being appended. -/
theorem insertCommitsEnh_nodup (fault : Nat → Bool) (clId : Nat) (u : String) (cs : List CommitIn) :
    ∀ (idx : Nat) (s s' : Store) (rows : List CommitRow),
      insertCommitsEnh fault clId u idx s cs = .ok (s', rows) →
      (s.processedCommits.map (·.hash)).Nodup →
      (s'.processedCommits.map (·.hash)).Nodup := by
  induction cs with
  | nil =>
    intro idx s s' rows h hnd
    simp only [insertCommitsEnh, Except.ok.injEq, Prod.mk.injEq] at h
    obtain ⟨h1, h2⟩ := h
    subst h1
    exact hnd
  | cons c cs ih =>
    intro idx s s' rows h hnd
    dsimp only [insertCommitsEnh] at h
    split at h
    · exact absurd h (by simp)
    · rename_i hguard
      have hnotmem : c.hash ∉ s.processedCommits.map (·.hash) := by
        intro hmem
        rcases List.mem_map.mp hmem with ⟨r, hr, hrh⟩
        have : s.processedCommits.any (fun r => r.hash == c.hash) = true :=
          List.any_eq_true.mpr ⟨r, hr, by simp [hrh]⟩
        simp [this] at hguard
      have hnd1 : ((s.processedCommits.map (·.hash)) ++ [c.hash]).Nodup := by
        simp [List.nodup_append, hnd, hnotmem]
      split at h
      · split at h
        · exact absurd h (by simp)
        · rename_i s3 rows3 heq
          simp only [Except.ok.injEq, Prod.mk.injEq] at h
          obtain ⟨h1, h2⟩ := h
          subst h1
          exact ih (idx + 1) _ s3 rows3 heq (by simpa using hnd1)
      · split at h
        · exact absurd h (by simp)
        · split at h
          · exact absurd h (by simp)
          · rename_i s3 rows3 heq
            simp only [Except.ok.injEq, Prod.mk.injEq] at h
            obtain ⟨h1, h2⟩ := h
            subst h1
            exact ih (idx + 1) _ s3 rows3 heq (by simpa using hnd1)

/-- `getLast?` ignores the head of a list with a non-empty tail. -/
theorem getLast?_cons_ne_nil {α : Type} (x : α) {xs : List α} (h : xs ≠ []) :
    (x :: xs).getLast? = xs.getLast? := by
  cases xs with
  | nil => exact absurd rfl h
  | cons y ys => rfl

/-- When the file-change insert of the batch's last commit is forced to fail
and that commit has files, commit insertion cannot succeed. -/
theorem insertCommitsEnh_not_ok (fault : Nat → Bool) (clId : Nat) (u : String)
    (cs : List CommitIn) (c : CommitIn) :
    ∀ (idx : Nat) (s s' : Store) (rows : List CommitRow),
      cs.getLast? = some c → c.files ≠ [] → fault (idx + cs.length - 1) = true →
      insertCommitsEnh fault clId u idx s cs ≠ .ok (s', rows) := by
  induction cs with
  | nil => intro idx s s' rows hlast; simp at hlast
  | cons x xs ih =>
    intro idx s s' rows hlast hfiles hfault h
    by_cases hxs : xs = []
    · subst hxs
      have hx : x = c := by simpa using hlast
      subst hx
      have hfault0 : fault idx = true := by simpa using hfault
      dsimp only [insertCommitsEnh] at h
      split at h <;> exact absurd h (by simp)
    · have hlast2 : xs.getLast? = some c := by
        rw [getLast?_cons_ne_nil x hxs] at hlast
        exact hlast
      have hfault2 : fault ((idx + 1) + xs.length - 1) = true := by
        have harith : (idx + 1) + xs.length - 1 = idx + (x :: xs).length - 1 := by
          simp
        rw [harith]
        exact hfault
      dsimp only [insertCommitsEnh] at h
      split at h
      · exact absurd h (by simp)
      · split at h
        · split at h
          · exact absurd h (by simp)
          · rename_i s3 rows3 heq
            exact absurd heq (ih (idx + 1) _ _ _ hlast2 hfiles hfault2)
        · split at h
          · exact absurd h (by simp)
          · split at h
            · exact absurd h (by simp)
            · rename_i s3 rows3 heq
              exact absurd heq (ih (idx + 1) _ _ _ hlast2 hfiles hfault2)

/-- Successful legacy commit insertion appends exactly the batch's hashes. -/
theorem insertCommitsLegacy_ok_hashes (clId : Nat) (u : String) (cs : List CommitIn) :
    ∀ (s s' : Store), insertCommitsLegacy clId u s cs = .ok s' →
      s'.processedCommits.map (·.hash)
        = s.processedCommits.map (·.hash) ++ cs.map (·.hash) := by
  induction cs with
  | nil =>
    intro s s' h
    simp only [insertCommitsLegacy, Except.ok.injEq] at h
    subst h
    simp
  | cons c cs ih =>
    intro s s' h
    dsimp only [insertCommitsLegacy] at h
    split at h
    · exact absurd h (by simp)
    · have := ih _ _ h
      rw [this]
      simp

/-- Successful legacy commit insertion preserves distinctness of the stored
hashes. -/
theorem insertCommitsLegacy_nodup (clId : Nat) (u : String) (cs : List CommitIn) :
    ∀ (s s' : Store), insertCommitsLegacy clId u s cs = .ok s' →
      (s.processedCommits.map (·.hash)).Nodup →
      (s'.processedCommits.map (·.hash)).Nodup := by
  induction cs with
  | nil =>
    intro s s' h hnd
    simp only [insertCommitsLegacy, Except.ok.injEq] at h
    subst h
    exact hnd
  | cons c cs ih =>
    intro s s' h hnd
    dsimp only [insertCommitsLegacy] at h
    split at h
    · exact absurd h (by simp)
    · rename_i hguard
      have hnotmem : c.hash ∉ s.processedCommits.map (·.hash) := by
        intro hmem
        rcases List.mem_map.mp hmem with ⟨r, hr, hrh⟩
        have : s.processedCommits.any (fun r => r.hash == c.hash) = true :=
          List.any_eq_true.mpr ⟨r, hr, by simp [hrh]⟩
        simp [this] at hguard
      exact ih _ _ h (by simp [List.nodup_append, hnd, hnotmem])

/-- One enhanced submission preserves global hash uniqueness. -/
theorem submitEnhanced_preserves_unique (fault : Nat → Bool) (inp : SubmitInput) (s : Store)
    (h : HashesUnique s) : HashesUnique (submitEnhanced fault inp s).1 := by
  unfold submitEnhanced runTransaction
  cases hbody : submitEnhancedBody fault inp s with
  | error e => exact h
  | ok p =>
    dsimp only [submitEnhancedBody] at hbody
    split at hbody
    · exact absurd hbody (by simp)
    · rename_i s3 commitRows heq
      simp only [Except.ok.injEq] at hbody
      subst hbody
      dsimp only [insertLinks, HashesUnique]
      exact insertCommitsEnh_nodup fault _ _ inp.commits 0 _ s3 commitRows heq
        (by rw [(insertEntriesAux_fst_others _ inp.entries 0 _).1]; exact h)

/-- One legacy submission preserves global hash uniqueness. -/
theorem submitLegacyDedup_preserves_unique (inp : LegacyInput) (s : Store)
    (h : HashesUnique s) : HashesUnique (submitLegacyDedup inp s).1 := by
  unfold submitLegacyDedup runTransaction
  cases hbody : submitLegacyDedupBody inp s with
  | error e => exact h
  | ok p =>
    dsimp only [submitLegacyDedupBody] at hbody
    split at hbody
    · exact absurd hbody (by simp)
    · split at hbody
      · exact absurd hbody (by simp)
      · rename_i s2 heq
        simp only [Except.ok.injEq] at hbody
        subst hbody
        dsimp only [HashesUnique]
        refine insertCommitsLegacy_nodup _ _ _ _ _ heq ?_
        exact h

/-- When the dedup re-check finds no new commit, the legacy submission aborts
with the no-new-commits error and leaves the store untouched. -/
theorem submitLegacyDedup_no_new (inp : LegacyInput) (t : Store)
    (hfilter : inp.commits.filter
      (fun c => !((((t.processedCommits.filter
        (fun r => (inp.commits.map (·.hash)).contains r.hash)).map (·.hash)).contains c.hash))) = []) :
    submitLegacyDedup inp t = (t, .error .noNewCommits) := by
  unfold submitLegacyDedup runTransaction submitLegacyDedupBody
  dsimp only
  rw [if_pos hfilter]

/-- A successful enhanced submission stores exactly the rows returned by entry
insertion, appended to the previous entries table. -/
theorem submitEnhanced_ok_entryRows (fault : Nat → Bool) (inp : SubmitInput) (s : Store)
    (hok : isOkB (submitEnhanced fault inp s).2 = true) :
    ∃ (clId : Nat) (s1 : Store),
      (submitEnhanced fault inp s).1.changelogEntries
        = s.changelogEntries ++ (insertEntriesAux clId 0 s1 inp.entries).2 := by
  unfold submitEnhanced runTransaction at hok ⊢
  cases hbody : submitEnhancedBody fault inp s with
  | error e => rw [hbody] at hok; simp [isOkB] at hok
  | ok p =>
    obtain ⟨sres, clres⟩ := p
    dsimp only [submitEnhancedBody] at hbody
    split at hbody
    · exact absurd hbody (by simp)
    · rename_i s3 commitRows heq
      simp only [Except.ok.injEq, Prod.mk.injEq] at hbody
      obtain ⟨hb1, hb2⟩ := hbody
      subst hb1
      dsimp only [insertLinks]
      refine ⟨s.changelogs.length,
        { s with changelogs := s.changelogs ++
            [{ id := s.changelogs.length, title := inp.title,
               content := String.intercalate "\n" (inp.entries.map (·.content)),
               type := inp.type }] }, ?_⟩
      have h3 := (insertCommitsEnh_ok fault _ _ inp.commits 0 _ s3 commitRows heq).2.2.1
      rw [h3, insertEntriesAux_fst_entries]

/-! ## Claims -/

/-- Claim C9: the metadata-derivation functions are deterministic total
functions of the entry text. `detectComponent` and `detectScope` test
lowercased keyword groups in a fixed priority order and return the category of
the first matching group (nothing when no group matches); `detectImpact`
returns "major" or "patch" when the respective keywords match and "minor"
otherwise; and `detectComponent "Enhanced security for login"` returns the
category of the highest-priority matching group, Authentication. Determinism
on repeated calls holds because the three are pure Lean functions. -/
theorem C9_detect_metadata_deterministic :
    (∀ s, detectComponent s = firstMatchingCategory componentKeywordGroups s) ∧
    (∀ s, detectScope s = firstMatchingCategory scopeKeywordGroups s) ∧
    (∀ s, detectImpact s =
      (if majorKeywords.any (fun k => jsIncludes (jsToLower s) k) then "major"
       else if patchKeywords.any (fun k => jsIncludes (jsToLower s) k) then "patch"
       else "minor")) ∧
    (∀ s, detectImpact s = "major" ∨ detectImpact s = "patch" ∨ detectImpact s = "minor") ∧
    detectComponent "Enhanced security for login" = some "Authentication" := by
  refine ⟨detectComponent_eq_table, detectScope_eq_table, detectImpact_eq_table, ?_, by decide⟩
  intro s
  rw [detectImpact_eq_table]
  split
  · exact Or.inl rfl
  · split
    · exact Or.inr (Or.inl rfl)
    · exact Or.inr (Or.inr rfl)

/-- Claim C7: when the generation capability fails, the entry extractor
returns the fixed, non-empty fallback entry list — never an error and never an
empty list — whose content is the fixed placeholder text opening with the
marker line of the source's mock entry. -/
theorem C7_fallback_on_generation_failure :
    (∀ err : String, generateEntries (Except.error err) = [fallbackEntry]) ∧
    (∀ err : String, generateEntries (Except.error err) ≠ []) ∧
    fallbackEntry.content = mockEntryContent ∧
    "**UI Layout Improvements**".toList.isPrefixOf mockEntryContent.toList = true := by
  refine ⟨fun _ => rfl, fun _ => by simp [generateEntries], rfl, by decide⟩

/-- Claim C4: the deduplication filter returns exactly the fetched commits
whose hashes are not stored for this repository identity — the set difference
fetched minus stored-for-identity — as an order-preserving subsequence of the
fetch; in particular with `a1` stored for the identity and fetch `[a1, a2]`,
it returns `[a2]`. -/
theorem C4_dedup_filter_set_difference :
    (∀ stored u fetched, dedupFilter stored u fetched = specNewCommits stored u fetched) ∧
    (∀ stored u fetched, (dedupFilter stored u fetched).Sublist fetched) ∧
    dedupFilter [⟨0, "a1", "m", "d", "https://github.com/owner/repo", 0, none⟩]
      "https://github.com/owner/repo"
      [⟨"a1", "Fix login bug", "d1"⟩, ⟨"a2", "Add dark mode", "d2"⟩]
      = [⟨"a2", "Add dark mode", "d2"⟩] := by
  refine ⟨?_, ?_, by decide⟩
  · intro stored u fetched
    unfold dedupFilter specNewCommits
    exact List.filter_congr (fun c _ => by rw [contains_filtered_hashes])
  · intro stored u fetched
    unfold dedupFilter
    exact List.filter_sublist fetched

/-- Claim C5, counterexample: hash `a1` is stored (under identity
`alpha/repo`), a fetch for the different identity `beta/other` returns a
commit with hash `a1`, and the deduplication filter does not exclude it — so
presence of a hash anywhere in storage is not authoritative for exclusion;
the filter only consults hashes recorded against the fetch's own identity. -/
theorem C5_cex_cross_identity_not_excluded :
    (∃ r ∈ [CommitRow.mk 0 "a1" "m" "d" "https://github.com/alpha/repo" 0 none], r.hash = "a1") ∧
    (∃ c ∈ dedupFilter [CommitRow.mk 0 "a1" "m" "d" "https://github.com/alpha/repo" 0 none]
        "https://github.com/beta/other" [⟨"a1", "msg", "d1"⟩], c.sha = "a1") := by
  decide

/-- Claim C5, amended: the deduplication filter excludes a fetched commit
exactly when its hash is already stored against the same repository identity
as the fetch; a hash stored only under a different identity is returned by the
filter (its later write then fails on the global hash uniqueness constraint
instead of being silently excluded). -/
theorem C5_amended_exclusion_is_per_identity :
    ∀ stored u fetched c, c ∈ dedupFilter stored u fetched ↔
      (c ∈ fetched ∧ ¬ StoredForIdentity stored u c.sha) := by
  intro stored u fetched c
  unfold dedupFilter
  rw [List.mem_filter]
  simp [contains_filtered_hashes, StoredForIdentity]

/-- Claim C8: the repository identity resolver either returns an owner/repo
pair with both components non-empty or fails with the invalid-identity error;
it accepts the `https://host/owner/repo[.git]` and `git@github.com:owner/repo[.git]`
forms, rejects strings the platform URL parser cannot parse and paths missing
the owner or the repo segment, and succeeds only on the SSH form or a
parseable URL. It is a pure function by construction. -/
theorem C8_parse_github_url_total :
    (∀ s, (∃ p, parseGitHubUrl s = .ok p ∧ p.owner ≠ "" ∧ p.repo ≠ "") ∨
        parseGitHubUrl s = .error invalidGitHubUrl) ∧
    parseGitHubUrl "https://github.com/acme/widgets.git" = .ok ⟨"acme", "widgets"⟩ ∧
    parseGitHubUrl "git@github.com:acme/widgets.git" = .ok ⟨"acme", "widgets"⟩ ∧
    parseGitHubUrl "not a url" = .error invalidGitHubUrl ∧
    parseGitHubUrl "https://github.com/acme" = .error invalidGitHubUrl ∧
    (∀ s, sshMarker.isPrefixOf s.toList = true ∨ urlPathname s.toList ≠ none ∨
        parseGitHubUrl s = .error invalidGitHubUrl) := by
  refine ⟨?_, by rfl, by rfl, by rfl, by rfl, ?_⟩
  · intro s
    unfold parseGitHubUrl
    dsimp only
    split
    · split
      · exact Or.inr rfl
      · rename_i hneg
        push_neg at hneg
        exact Or.inl ⟨_, rfl, string_mk_ne_empty hneg.1, string_mk_ne_empty hneg.2⟩
    · split
      · exact Or.inr rfl
      · split
        · exact Or.inr rfl
        · rename_i hneg
          push_neg at hneg
          exact Or.inl ⟨_, rfl, string_mk_ne_empty hneg.1, string_mk_ne_empty hneg.2⟩
  · intro s
    unfold parseGitHubUrl
    dsimp only
    split
    · rename_i hp
      exact Or.inl hp
    · split
      · rename_i heq
        exact Or.inr (Or.inr rfl)
      · rename_i heq
        exact Or.inr (Or.inl (fun hnone => Option.noConfusion (Eq.trans (Eq.symm hnone) heq)))

/-- Claim C1: submitting a batch and then submitting the same batch again with
the dedup-checking submit transaction stores zero new Commit rows on the
second submission — the store is unchanged — and surfaces the no-new-commits
error: the transaction's re-run storage check finds every hash of the batch
already stored and aborts. -/
theorem C1_resubmission_aborts_no_new_commits (inp : LegacyInput) (s : Store)
    (hok : isOkB (submitLegacyDedup inp s).2 = true) :
    (submitLegacyDedup inp ((submitLegacyDedup inp s).1)).2 = .error .noNewCommits ∧
    (submitLegacyDedup inp ((submitLegacyDedup inp s).1)).1 = (submitLegacyDedup inp s).1 := by
  have hall : ∀ c ∈ inp.commits,
      c.hash ∈ ((submitLegacyDedup inp s).1).processedCommits.map (·.hash) := by
    intro c hc
    unfold submitLegacyDedup runTransaction at hok ⊢
    cases hbody : submitLegacyDedupBody inp s with
    | error e => rw [hbody] at hok; simp [isOkB] at hok
    | ok p =>
      obtain ⟨sres, clres⟩ := p
      dsimp only [submitLegacyDedupBody] at hbody
      split at hbody
      · exact absurd hbody (by simp)
      · rename_i hne
        split at hbody
        · exact absurd hbody (by simp)
        · rename_i s2 heq
          simp only [Except.ok.injEq, Prod.mk.injEq] at hbody
          obtain ⟨hb1, hb2⟩ := hbody
          subst hb1
          dsimp only
          rw [insertCommitsLegacy_ok_hashes _ _ _ _ _ heq]
          by_cases hmem : c.hash ∈
              ((s.processedCommits.filter
                (fun r => (inp.commits.map (·.hash)).contains r.hash)).map (·.hash))
          · rcases List.mem_map.mp hmem with ⟨r, hr, hrh⟩
            have : c.hash ∈ s.processedCommits.map (·.hash) :=
              List.mem_map.mpr ⟨r, (List.mem_filter.mp hr).1, hrh⟩
            exact List.mem_append.mpr (Or.inl (by simpa using this))
          · have hkeep : c ∈ inp.commits.filter
                (fun c => !(((s.processedCommits.filter
                  (fun r => (inp.commits.map (·.hash)).contains r.hash)).map (·.hash)).contains c.hash)) := by
              refine List.mem_filter.mpr ⟨hc, ?_⟩
              simp only [Bool.not_eq_true']
              exact (Bool.not_eq_true _).mp (fun habs => hmem (List.elem_iff.mp habs))
            exact List.mem_append.mpr (Or.inr (List.mem_map.mpr ⟨c, hkeep, rfl⟩))
  have hfilter : inp.commits.filter
      (fun c => !(((((submitLegacyDedup inp s).1).processedCommits.filter
        (fun r => (inp.commits.map (·.hash)).contains r.hash)).map (·.hash)).contains c.hash)) = [] := by
    rw [List.filter_eq_nil_iff]
    intro c hc
    simp only [Bool.not_eq_true', Bool.not_eq_false]
    rcases List.mem_map.mp (hall c hc) with ⟨r, hr, hrh⟩
    refine List.elem_iff.mpr (List.mem_map.mpr ⟨r, List.mem_filter.mpr ⟨hr, ?_⟩, hrh⟩)
    exact List.elem_iff.mpr (by rw [hrh]; exact List.mem_map.mpr ⟨c, hc, rfl⟩)
  have h2 := submitLegacyDedup_no_new inp ((submitLegacyDedup inp s).1) hfilter
  rw [h2]
  exact ⟨rfl, rfl⟩

/-- Witness for claim C1 at a concrete two-commit batch. -/
theorem C1_resubmission_witness :
    (submitLegacyDedup inpC1sample ((submitLegacyDedup inpC1sample emptyStore).1)).2
      = .error .noNewCommits ∧
    (submitLegacyDedup inpC1sample ((submitLegacyDedup inpC1sample emptyStore).1)).1
      = (submitLegacyDedup inpC1sample emptyStore).1 :=
  C1_resubmission_aborts_no_new_commits inpC1sample emptyStore (by rfl)

/-- Claim C2: the persistence transaction is atomic. In general every
submission either leaves the store exactly as it was or succeeds; and when the
file-change insert of the batch's last commit is forced to fail, the store
afterwards equals the store before — no Changelog, ChangelogEntry, Commit or
EntryCommitLink row from the submission remains — and the caller receives a
single error. -/
theorem C2_transaction_atomic_rollback :
    (∀ (fault : Nat → Bool) (inp : SubmitInput) (s : Store),
      (submitEnhanced fault inp s).1 = s ∨ isOkB (submitEnhanced fault inp s).2 = true) ∧
    (∀ (inp : SubmitInput) (s : Store) (c : CommitIn),
      inp.commits.getLast? = some c → c.files ≠ [] →
      (submitEnhanced (fun i => i == inp.commits.length - 1) inp s).1 = s ∧
      ∃ e, (submitEnhanced (fun i => i == inp.commits.length - 1) inp s).2 = .error e) := by
  constructor
  · intro fault inp s
    unfold submitEnhanced runTransaction
    cases hbody : submitEnhancedBody fault inp s with
    | error e => exact Or.inl rfl
    | ok p => exact Or.inr rfl
  · intro inp s c hc hf
    unfold submitEnhanced runTransaction
    cases hbody : submitEnhancedBody (fun i => i == inp.commits.length - 1) inp s with
    | error e => exact ⟨rfl, e, rfl⟩
    | ok p =>
      exfalso
      dsimp only [submitEnhancedBody] at hbody
      split at hbody
      · exact absurd hbody (by simp)
      · rename_i s3 commitRows heq
        exact absurd heq (insertCommitsEnh_not_ok _ _ _ inp.commits c 0 _ _ _ hc hf (by simp))

/-- Witness for claim C2: a one-commit batch with one file change, submitted
to the empty store with the forced fault, leaves the store empty and errors. -/
theorem C2_atomicity_witness :
    (submitEnhanced (fun i => i == inpC2sample.commits.length - 1) inpC2sample emptyStore).1
      = emptyStore ∧
    ∃ e, (submitEnhanced (fun i => i == inpC2sample.commits.length - 1) inpC2sample emptyStore).2
      = .error e :=
  C2_transaction_atomic_rollback.2 inpC2sample emptyStore commitC2sample (by rfl) (by decide)

/-- Claim C3: in every store reachable from the empty database by submissions,
no two stored Commit rows share a hash; and a write of a commit whose hash is
already stored — under any repository identity — fails with the uniqueness
violation instead of silently duplicating. -/
theorem C3_stored_hashes_globally_unique :
    (∀ s, Reachable s → HashesUnique s) ∧
    (∀ (fault : Nat → Bool) (clId : Nat) (u : String) (idx : Nat) (s : Store)
        (c : CommitIn) (cs : List CommitIn),
      (∃ r ∈ s.processedCommits, r.hash = c.hash) →
      insertCommitsEnh fault clId u idx s (c :: cs) = .error .uniqueViolation) := by
  constructor
  · intro s hreach
    induction hreach with
    | refl => simp [HashesUnique, emptyStore]
    | tail hr hstep ih =>
      cases hstep with
      | enhanced fault inp => exact submitEnhanced_preserves_unique fault inp _ ih
      | legacy inp => exact submitLegacyDedup_preserves_unique inp _ ih
  · intro fault clId u idx s c cs hex
    have hguard : (s.processedCommits.any (fun r => r.hash == c.hash)) = true := by
      rcases hex with ⟨r, hr, hh⟩
      exact List.any_eq_true.mpr ⟨r, hr, by simp [hh]⟩
    dsimp only [insertCommitsEnh]
    rw [if_pos hguard]

/-- Witness for claim C3: a store reached by one submission has pairwise
distinct hashes, and inserting a commit whose hash is already stored fails. -/
theorem C3_uniqueness_witness :
    HashesUnique (submitLegacyDedup inpC3sample emptyStore).1 ∧
    insertCommitsEnh (fun _ => false) 0 "u" 0 storeC3sample [commitC3sample]
      = .error .uniqueViolation :=
  ⟨C3_stored_hashes_globally_unique.1 _
      (Relation.ReflTransGen.single (Step.legacy inpC3sample emptyStore)),
   C3_stored_hashes_globally_unique.2 _ 0 "u" 0 storeC3sample commitC3sample [] (by decide)⟩

/-- Claim C6, counterexample: a submission the route accepts, whose two
entries carry explicit order values 2 and 9, stores ordinals [2, 9] — not the
dense zero-based sequence 0..N-1 the claim asserts for every accepted entry
list, because the route stores `entry.order || index`. -/
theorem C6_cex_explicit_orders_break_density :
    isOkB (submitEnhanced (fun _ => false) inpC6cexSample emptyStore).2 = true ∧
    (submitEnhanced (fun _ => false) inpC6cexSample emptyStore).1.changelogEntries.map (·.order)
      = [2, 9] ∧
    ([2, 9] : List Nat) ≠ List.range 2 := by
  refine ⟨by rfl, by rfl, by decide⟩

/-- Claim C6, amended: the stored ordinal of each entry is its submitted order
value when that value is present and non-zero, and its position in the
submitted list otherwise; hence whenever every submitted order value defers to
the entry's position (absent, zero, or equal to it), the rows of a successful
submission carry exactly the dense zero-based ordinals 0..N-1, in submission
order, and are strictly sorted by ordinal, so reading them back ordered by
ordinal yields the submitted order. -/
theorem C6_amended_dense_ordinals (fault : Nat → Bool) (inp : SubmitInput) (s : Store)
    (hok : isOkB (submitEnhanced fault inp s).2 = true)
    (hord : ∀ i (hi : i < inp.entries.length),
      jsOrNat ((inp.entries.get ⟨i, hi⟩).order) i = i) :
    ∃ rows : List EntryRow,
      (submitEnhanced fault inp s).1.changelogEntries = s.changelogEntries ++ rows ∧
      rows.map (·.content) = inp.entries.map (·.content) ∧
      rows.map (·.order) = List.range inp.entries.length ∧
      rows.Pairwise (fun a b => a.order < b.order) := by
  obtain ⟨clId, s1, hEq⟩ := submitEnhanced_ok_entryRows fault inp s hok
  have hord2 : ∀ i (hi : i < inp.entries.length),
      jsOrNat ((inp.entries.get ⟨i, hi⟩).order) (0 + i) = 0 + i := by
    intro i hi
    simpa [Nat.zero_add] using hord i hi
  have horders := insertEntriesAux_snd_orders clId inp.entries 0 s1 hord2
  rw [← List.range_eq_range'] at horders
  refine ⟨_, hEq, insertEntriesAux_snd_contents clId inp.entries 0 s1, horders, ?_⟩
  have hp : ((insertEntriesAux clId 0 s1 inp.entries).2.map (·.order)).Pairwise (· < ·) := by
    rw [horders]
    exact List.pairwise_lt_range _
  exact (List.pairwise_map.mp hp)

/-- Witness for the amended claim C6 at a concrete two-entry submission
without explicit order values. -/
theorem C6_amended_witness :
    ∃ rows : List EntryRow,
      (submitEnhanced (fun _ => false) inpC6sample emptyStore).1.changelogEntries
        = emptyStore.changelogEntries ++ rows ∧
      rows.map (·.content) = inpC6sample.entries.map (·.content) ∧
      rows.map (·.order) = List.range inpC6sample.entries.length ∧
      rows.Pairwise (fun a b => a.order < b.order) :=
  C6_amended_dense_ordinals (fun _ => false) inpC6sample emptyStore (by rfl)
    (by
      intro i hi
      have hi2 : i < 2 := by simpa [inpC6sample] using hi
      interval_cases i <;> rfl)

/-- Claim C10: every ChangelogEntry row written by the persistence transaction
has its user-facing flag stored as `true`, for every input — the write uses
`entry.isUserFacing || true`, so even an entry submitted with
`isUserFacing = false` is stored as user-facing, and one row is stored per
submitted entry. -/
theorem C10_user_facing_forced_true (fault : Nat → Bool) (inp : SubmitInput) (s : Store)
    (hok : isOkB (submitEnhanced fault inp s).2 = true) :
    ∃ rows : List EntryRow,
      (submitEnhanced fault inp s).1.changelogEntries = s.changelogEntries ++ rows ∧
      rows.length = inp.entries.length ∧
      ∀ r ∈ rows, r.isUserFacing = true := by
  obtain ⟨clId, s1, hEq⟩ := submitEnhanced_ok_entryRows fault inp s hok
  refine ⟨_, hEq, ?_, ?_⟩
  · have hc := insertEntriesAux_snd_contents clId inp.entries 0 s1
    calc (insertEntriesAux clId 0 s1 inp.entries).2.length
        = ((insertEntriesAux clId 0 s1 inp.entries).2.map (·.content)).length := by simp
      _ = (inp.entries.map (·.content)).length := by rw [hc]
      _ = inp.entries.length := by simp
  · exact insertEntriesAux_snd_userFacing clId inp.entries 0 s1

/-- Witness for claim C10 at a concrete submission whose entry carries
`isUserFacing = false`. -/
theorem C10_forced_true_witness :
    ∃ rows : List EntryRow,
      (submitEnhanced (fun _ => false) inpC10sample emptyStore).1.changelogEntries
        = emptyStore.changelogEntries ++ rows ∧
      rows.length = inpC10sample.entries.length ∧
      ∀ r ∈ rows, r.isUserFacing = true :=
  C10_user_facing_forced_true (fun _ => false) inpC10sample emptyStore (by rfl)

end ChangelogGen
